import Mathlib

/-!
Verification of the bookdl download engine against its specification.

The definitions below are a shallow embedding of the Go sources:
`internal/downloader` (chunk planning, range fetching, retrying,
backoff, error categorization) and `internal/db/downloads.go`
(the persisted Download/Chunk store).  Byte counts and sizes are
modelled as `Nat` (the Go code uses non-negative `int64` values far
below overflow), float64 arithmetic is modelled exactly over `ℚ`,
and each SQL statement or explicit transaction of the store is one
atomic step on an explicit store state.
-/

namespace BookDL

/-! ### Data model -/

/-- Chunk mirrors the Go struct `db.Chunk`: a byte range of a download
with its own persisted progress.  `id` is the database row id (zero
until inserted). -/
structure Chunk where
  id : Nat
  downloadId : Nat
  chunkIndex : Nat
  startByte : Nat
  endByte : Nat
  downloaded : Nat
  status : String
deriving Repr, DecidableEq

/-- DownloadStatus mirrors the five string constants of
`db.DownloadStatus`. -/
inductive DownloadStatus where
  | pending
  | downloading
  | paused
  | completed
  | failed
deriving Repr, DecidableEq

/-- Download models the fields of the Go struct `db.Download` that the
state-changing store operations touch.  The SQL NULL written into
`error_message` by a reset is modelled as the empty string, which is
also what the Go row scanner yields for NULL. -/
structure Download where
  status : DownloadStatus
  downloadedSize : Nat
  retryCount : Nat
  errorMessage : String
  filePath : String
  tempPath : Option String
deriving Repr, DecidableEq

/-! ### Chunk planner (`Manager.createChunks`) -/

/-- createChunks embeds `Manager.createChunks`: `numChunks` is the Go
expression `(fileSize + chunkSize - 1) / chunkSize`, chunk `i` starts
at `i * chunkSize`, ends at `start + chunkSize - 1` clamped to
`fileSize - 1`, with status "pending". -/
def createChunks (fileSize chunkSize : Nat) : List Chunk :=
  (List.range ((fileSize + chunkSize - 1) / chunkSize)).map fun i =>
    let start := i * chunkSize
    let e := start + chunkSize - 1
    { id := 0
      downloadId := 0
      chunkIndex := i
      startByte := start
      endByte := if fileSize ≤ e then fileSize - 1 else e
      downloaded := 0
      status := "pending" }

/-- Number of chunks the planner produces, as written in the source. -/
def numChunks (fileSize chunkSize : Nat) : Nat :=
  (fileSize + chunkSize - 1) / chunkSize

/-- The chunk-planner correctness statement for sizes (S, C): the plan
has `(S + C - 1) / C = ⌈S/C⌉` chunks, chunk i is 0-indexed, starts at
`i*C`, ends at `start + C - 1` except the last one which ends at
`S - 1`, chunks are contiguous, non-overlapping and cover `[0, S)`. -/
def ChunkPlanOk (S C : Nat) : Prop :=
  (createChunks S C).length = (S + C - 1) / C ∧
  (∀ i, ∀ h : i < (createChunks S C).length,
    ((createChunks S C)[i]).chunkIndex = i ∧
    ((createChunks S C)[i]).startByte = i * C ∧
    (i + 1 < (createChunks S C).length →
      ((createChunks S C)[i]).endByte = i * C + C - 1) ∧
    (i + 1 = (createChunks S C).length →
      ((createChunks S C)[i]).endByte = S - 1) ∧
    ((createChunks S C)[i]).endByte < S) ∧
  (∀ i, ∀ h : i + 1 < (createChunks S C).length,
    ((createChunks S C)[i + 1]).startByte = ((createChunks S C)[i]).endByte + 1) ∧
  (∀ i j, ∀ hi : i < (createChunks S C).length,
    ∀ hj : j < (createChunks S C).length, i < j →
    ((createChunks S C)[i]).endByte < ((createChunks S C)[j]).startByte) ∧
  (∀ b, b < S → ∃ i, ∃ h : i < (createChunks S C).length,
    ((createChunks S C)[i]).startByte ≤ b ∧
    b ≤ ((createChunks S C)[i]).endByte)

/-! ### Resume request planning (`downloadChunked` + `downloadChunk`) -/

/-- A byte range requested by a GET, as put into the Range header
`bytes=startPos-endPos` by `downloadChunk`. -/
structure RangeReq where
  startPos : Nat
  endPos : Nat
deriving Repr, DecidableEq

/-- The persisted chunk rows of a resumed download: the planner's
layout for (S, C) with each row's status and downloaded count as read
back from the store (`db.GetChunks`). -/
def resumeChunks (S C : Nat) (st : Nat → String) (dl : Nat → Nat) : List Chunk :=
  (createChunks S C).map fun c =>
    { c with status := st c.chunkIndex, downloaded := dl c.chunkIndex }

/-- The Range header `downloadChunk` issues for a chunk: resume
position `startByte + downloaded` through `endByte`. -/
def chunkRequest (c : Chunk) : RangeReq :=
  { startPos := c.startByte + c.downloaded, endPos := c.endByte }

/-- The requests the chunked fetch loop issues: `downloadChunked`
skips every chunk whose status is "completed" (`continue`) and calls
`downloadChunk` on the rest, which sets the Range header from the
resume position. -/
def planChunkRequests (chunks : List Chunk) : List RangeReq :=
  (chunks.filter fun c => !(c.status == "completed")).map chunkRequest

/-- A byte is requested if some issued Range covers it. -/
def RequestedByte (reqs : List RangeReq) (b : Nat) : Prop :=
  ∃ r ∈ reqs, r.startPos ≤ b ∧ b ≤ r.endPos

/-! ### String helpers mirroring the Go standard library calls used -/

/-- listHasInfix pat s decides whether pat occurs contiguously inside
s, mirroring `strings.Contains(s, pat)`. -/
def listHasInfix (pat : List Char) : List Char → Bool
  | [] => pat.isPrefixOf ([] : List Char)
  | a :: rest => pat.isPrefixOf (a :: rest) || listHasInfix pat rest

/-- goContains s sub mirrors the Go call `strings.Contains(s, sub)`. -/
def goContains (s sub : String) : Bool :=
  listHasInfix sub.data s.data

/-- strToLower mirrors `strings.ToLower` on the ASCII inputs this
program feeds it (character-wise lower-casing). -/
def strToLower (s : String) : String :=
  String.mk (s.data.map Char.toLower)

/-- strTake s n is the string of the first n characters of s (the
prefix of the body that `io.ReadFull` reads into the sniff buffer). -/
def strTake (s : String) (n : Nat) : String :=
  String.mk (s.data.take n)

/-- The decimal value of a digit run, as `fmt.Sscanf`'s %d verb
produces it. -/
def digitsToNat (cs : List Char) : Nat :=
  cs.foldl (fun n c => n * 10 + (c.toNat - 48)) 0

/-! ### Error categorization (`CategorizeError`) -/

/-- ErrorCategory mirrors the Go enum: Retryable, NonRetryable,
RateLimited. -/
inductive ErrorCategory where
  | retryable
  | nonRetryable
  | rateLimited
deriving Repr, DecidableEq

/-- GoError models a Go error value as seen by `CategorizeError`: its
`Error()` message string and whether it unwraps to a `net.Error`
whose `Timeout()` returns true. -/
structure GoError where
  msg : String
  isNetTimeout : Bool
deriving Repr, DecidableEq

/-- The retryablePatterns slice of the source, verbatim (note the
upper-case "EOF" entry). -/
def retryablePatterns : List String :=
  ["connection reset", "connection refused", "no such host",
   "temporary failure", "timeout", "EOF", "broken pipe"]

/-- CategorizeError embeds the Go function of the same name: the
status-code switch first, then the nil check, the net.Error timeout
check, and the substring scan of the lower-cased error text against
`retryablePatterns`; anything else is non-retryable.  `none` models a
nil error. -/
def CategorizeError (err : Option GoError) (statusCode : Nat) : ErrorCategory :=
  if statusCode = 429 then .rateLimited
  else if statusCode = 400 ∨ statusCode = 401 ∨ statusCode = 403 ∨
      statusCode = 404 ∨ statusCode = 405 ∨ statusCode = 410 ∨
      statusCode = 413 then .nonRetryable
  else if statusCode = 500 ∨ statusCode = 502 ∨ statusCode = 503 ∨
      statusCode = 504 then .retryable
  else
    match err with
    | none => .retryable
    | some e =>
      if e.isNetTimeout then .retryable
      else if retryablePatterns.any fun p => goContains (strToLower e.msg) p then
        .retryable
      else .nonRetryable

/-! ### Backoff (`CalculateBackoff`), float64 modelled exactly over ℚ -/

/-- RetryConfig mirrors the Go struct; delays are in nanoseconds
(`time.Duration`), kept as exact rationals. -/
structure RetryConfig where
  maxAttempts : Nat
  baseDelay : ℚ
  maxDelay : ℚ
  multiplier : ℚ
deriving Repr, DecidableEq

/-- The delay the multiply-loop of `CalculateBackoff` grows
(`baseDelay * multiplier ^ attempt`), after the cap at `maxDelay`
(the Go lines `for ... delay *= multiplier` and
`if delay > float64(cfg.MaxDelay) { delay = ... }`). -/
def cappedDelay (attempt : Nat) (cfg : RetryConfig) : ℚ :=
  if cfg.maxDelay < cfg.baseDelay * cfg.multiplier ^ attempt then cfg.maxDelay
  else cfg.baseDelay * cfg.multiplier ^ attempt

/-- CalculateBackoff embeds the Go function: attempt 0 returns the
base delay unperturbed; otherwise the capped exponential delay is
perturbed by jitter `delay * 0.25 * (u*2 - 1)` where `u` stands for
the `rand.Float64()` draw in `[0, 1)`.  The final truncation to an
integer number of nanoseconds is not modelled. -/
def CalculateBackoff (attempt : Nat) (cfg : RetryConfig) (u : ℚ) : ℚ :=
  if attempt = 0 then cfg.baseDelay
  else cappedDelay attempt cfg + cappedDelay attempt cfg * (1/4) * (u * 2 - 1)

/-- The mean of `CalculateBackoff` over the uniform jitter draw: the
capped exponential delay itself (the jitter is symmetric around 0). -/
def ExpectedBackoff (attempt : Nat) (cfg : RetryConfig) : ℚ :=
  if attempt = 0 then cfg.baseDelay
  else cappedDelay attempt cfg

/-! ### The chunk fetch loop of `downloadChunk` -/

/-- The fixed checkpoint interval of the source: 256 KiB. -/
def checkpointInterval : Nat := 256 * 1024

/-- In-flight state of one chunk fetch: the in-memory
`chunk.Downloaded` counter and the last value of it persisted to the
store. -/
structure ChunkFetchState where
  downloaded : Nat
  persistedDownloaded : Nat
deriving Repr, DecidableEq

/-- One iteration of the read loop on a successful read of n bytes:
the counter advances by n, and the progress is persisted (chunk
downloaded and aggregate size together, via `UpdateProgressAtomic`)
exactly when the new counter value is a multiple of the checkpoint
interval — the Go test is `chunk.Downloaded % (256*1024) == 0`. -/
def stepRead (st : ChunkFetchState) (n : Nat) : ChunkFetchState :=
  if n = 0 then st
  else
    let d := st.downloaded + n
    if d % checkpointInterval = 0 then
      { downloaded := d, persistedDownloaded := d }
    else
      { downloaded := d, persistedDownloaded := st.persistedDownloaded }

/-- Folding the read loop over the byte counts of successive reads. -/
def runReads (st : ChunkFetchState) (ns : List Nat) : ChunkFetchState :=
  ns.foldl stepRead st

/-- The error value a `resp.Body.Read` call returns alongside its
byte count: nil, io.EOF, or any other error. -/
inductive ReadErr where
  | ok
  | eof
  | fail
deriving Repr, DecidableEq

/-- How a chunk fetch ends: the chunk row marked completed, the fetch
returning an error, or the trace exhausted mid-loop. -/
inductive ChunkOutcome where
  | completed
  | failed
  | pending
deriving Repr, DecidableEq

/-- downloadChunkRun embeds the body-read loop of `downloadChunk`: for
each read event the byte count is processed first (`if n > 0`), then
io.EOF breaks the loop and the chunk is marked completed with no
byte-count check, and any other error flushes the counter and fails
the chunk. -/
def downloadChunkRun (st : ChunkFetchState) :
    List (Nat × ReadErr) → ChunkFetchState × ChunkOutcome
  | [] => (st, .pending)
  | (n, e) :: rest =>
    let st' := stepRead st n
    match e with
    | .eof => (st', .completed)
    | .fail => (⟨st'.downloaded, st'.downloaded⟩, .failed)
    | .ok => downloadChunkRun st' rest

/-- The byte length of a chunk's range. -/
def chunkLength (c : Chunk) : Nat := c.endByte - c.startByte + 1

/-- Whether `downloadChunked` reaches its final `os.Rename`: every
chunk is either already completed or its fetch trace ends in a
completed chunk; the loop returns early otherwise. -/
def downloadChunkedRenamed (chunks : List Chunk)
    (traces : Nat → List (Nat × ReadErr)) : Bool :=
  chunks.all fun c =>
    (c.status == "completed") ||
      decide ((downloadChunkRun ⟨c.downloaded, c.downloaded⟩
        (traces c.chunkIndex)).2 = ChunkOutcome.completed)

/-! ### Simple-mode download (`downloadSimple`) -/

/-- Result of a simple-mode transfer: success, the HTML
content-mismatch error `ErrHTMLContent`, or a non-200 status error. -/
inductive SimpleResult where
  | ok
  | errHTMLContent
  | errServerStatus (code : Nat)
deriving Repr, DecidableEq

/-- The parts of an HTTP response that `downloadSimple` inspects. -/
structure HTTPResponse where
  statusCode : Nat
  contentType : String
  body : String
deriving Repr, DecidableEq

/-- Observable outcome of `downloadSimple`: its return value, the
bytes written into the temp file, and whether the temp file was
renamed onto the destination path. -/
structure SimpleOutcome where
  result : SimpleResult
  tempWrites : String
  renamed : Bool
deriving Repr, DecidableEq

/-- The marker substrings `downloadSimple` scans the lower-cased
sniffed header for, verbatim from the source. -/
def htmlMarkers : List String :=
  ["<!doctype html", "<html", "<head", "<body", "<title>", "<!doctype",
   "<script", "cloudflare", "captcha", "access denied", "error 403",
   "error 404"]

/-- downloadSimple embeds the Go function: non-200 status fails, a
text/html Content-Type fails with ErrHTMLContent, then the first (up
to) 2048 body bytes are sniffed — if any marker occurs in their
lower-casing the function returns ErrHTMLContent before writing the
sniffed bytes; otherwise the whole body is streamed to the temp file,
which is then renamed onto the destination.  Local I/O failures are
not modelled. -/
def downloadSimple (resp : HTTPResponse) : SimpleOutcome :=
  if resp.statusCode ≠ 200 then
    { result := .errServerStatus resp.statusCode, tempWrites := "",
      renamed := false }
  else if goContains resp.contentType "text/html" then
    { result := .errHTMLContent, tempWrites := "", renamed := false }
  else if 0 < (strTake resp.body 2048).length ∧
      (htmlMarkers.any fun m =>
        goContains (strToLower (strTake resp.body 2048)) m) then
    { result := .errHTMLContent, tempWrites := "", renamed := false }
  else
    { result := .ok, tempWrites := resp.body, renamed := true }

/-! ### Range-capability probing (`checkRangeSupport`) and mode choice -/

/-- HeadResp: a received HEAD response — its status code, Accept-Ranges
header value and ContentLength.  The source reads only the header and
the length; the status code of the HEAD response is never inspected. -/
structure HeadResp where
  statusCode : Nat
  acceptRanges : String
  contentLength : Int
deriving Repr, DecidableEq

/-- GetProbeResp: the response to the fallback `Range: bytes=0-0` GET:
status code, Content-Range header value, ContentLength. -/
structure GetProbeResp where
  statusCode : Nat
  contentRange : String
  contentLength : Int
deriving Repr, DecidableEq

/-- parseContentRangeTotal embeds the
`fmt.Sscanf(contentRange, "bytes 0-0/%d", &total)` call: on a
non-matching header the scanned variable keeps its zero value. -/
def parseContentRangeTotal (s : String) : Int :=
  if ("bytes 0-0/".data.isPrefixOf s.data) = true then
    Int.ofNat (digitsToNat ((s.data.drop 10).takeWhile Char.isDigit))
  else 0

/-- What the probe decides: range support, the probed total size, and
whether the fallback GET was issued. -/
structure ProbeResult where
  supportsRange : Bool
  totalSize : Int
  fallbackIssued : Bool
deriving Repr, DecidableEq

/-- checkRangeSupport embeds `Manager.checkRangeSupport` together with
`checkRangeSupportWithGet`: `head = none` models the HEAD round-trip
failing at the transport level (`httpClient.Do` returning an error),
which is the only condition on which the source falls back to the
ranged GET.  Any received HEAD response — whatever its status code,
even a 405 rejection, and whether or not an Accept-Ranges header is
present — decides support by `Accept-Ranges == "bytes"` with no
fallback.  The fallback infers support exactly from a 206 status,
parsing the total from Content-Range; otherwise it reports no support
with the response's ContentLength. -/
def checkRangeSupport (head : Option HeadResp) (get : GetProbeResp) :
    ProbeResult :=
  match head with
  | some h =>
    { supportsRange := h.acceptRanges == "bytes",
      totalSize := h.contentLength, fallbackIssued := false }
  | none =>
    if get.statusCode = 206 then
      { supportsRange := true,
        totalSize := parseContentRangeTotal get.contentRange,
        fallbackIssued := true }
    else
      { supportsRange := false, totalSize := get.contentLength,
        fallbackIssued := true }

/-- The two transfer paths of `StartDownload`. -/
inductive TransferMode where
  | chunked
  | simple
deriving Repr, DecidableEq

/-- selectMode embeds the branch
`if supportsRange && totalSize > m.chunkSize { chunked } else
{ simple }` of `StartDownload`. -/
def selectMode (supportsRange : Bool) (totalSize chunkSize : Int) :
    TransferMode :=
  if supportsRange = true ∧ chunkSize < totalSize then .chunked else .simple

/-- Chunk rows are created only on the chunked path
(`downloadChunked` creates them; `downloadSimple` never does). -/
def chunkRowsCreated (mode : TransferMode) (S C : Nat) : List Chunk :=
  match mode with
  | .chunked => createChunks S C
  | .simple => []

/-! ### Store operations (`internal/db/downloads.go`) -/

/-- UpdateStatus embeds `db.UpdateStatus`: one UPDATE setting exactly
the requested status and error message, with no condition on the
current row state. -/
def UpdateStatus (d : Download) (s : DownloadStatus) (errMsg : String) :
    Download :=
  { d with status := s, errorMessage := errMsg }

/-- MarkCompleted embeds `db.MarkCompleted`: sets status completed,
swaps in the final path and clears the temp path, unconditionally. -/
def MarkCompleted (d : Download) (filePath : String) : Download :=
  { d with status := .completed, filePath := filePath, tempPath := none }

/-- The downloads-row UPDATE of `db.ResetDownload`. -/
def resetRowUpdate (d : Download) : Download :=
  { d with
    downloadedSize := 0
    retryCount := 0
    status := .pending
    errorMessage := "" }

/-- PauseDownload embeds `Manager.PauseDownload`'s store effect:
`db.UpdateStatus(id, StatusPaused, "")`, issued whether or not a
cancellation handle was found. -/
def PauseDownload (d : Download) : Download :=
  UpdateStatus d .paused ""

/-- The status write `StartDownload` performs on entry:
`db.UpdateStatus(id, StatusDownloading, "")`. -/
def startDownloadStatus (d : Download) : Download :=
  UpdateStatus d .downloading ""

/-- The rows of one download as a reader of the store sees them. -/
structure StoreState where
  download : Download
  chunks : List Chunk
deriving Repr, DecidableEq

/-- ResetDownload as written in the source: two separate
`database.Exec` statements — first the downloads-row UPDATE, then the
chunk DELETE — with no enclosing transaction, so each is its own
atomic step. -/
def resetDownloadScript : List (StoreState → StoreState) :=
  [fun s => { s with download := resetRowUpdate s.download },
   fun s => { s with chunks := [] }]

/-- UpdateProgressAtomic as written in the source: both UPDATEs run
inside one `database.Begin()`/`tx.Commit()` transaction, hence one
atomic step. -/
def updateProgressAtomicScript (chunkId chunkDownloaded totalDownloaded : Nat) :
    List (StoreState → StoreState) :=
  [fun s =>
    { download := { s.download with downloadedSize := totalDownloaded },
      chunks := s.chunks.map fun c =>
        if c.id = chunkId then { c with downloaded := chunkDownloaded }
        else c }]

/-- The store states a concurrent reader can observe while a script of
atomic steps executes: the initial state and the state after each
step. -/
def observables (init : StoreState) :
    List (StoreState → StoreState) → List StoreState
  | [] => [init]
  | f :: rest => init :: observables (f init) rest

/-- The status transitions the specification's state machine allows
(including the explicit-restart edges out of failed and completed). -/
def specTransition : DownloadStatus → DownloadStatus → Bool
  | .pending, .downloading => true
  | .downloading, .completed => true
  | .downloading, .paused => true
  | .downloading, .failed => true
  | .paused, .downloading => true
  | .failed, .pending => true
  | .completed, .pending => true
  | _, _ => false

/-! ## Lemmas about the chunk planner -/

lemma createChunks_length (S C : Nat) :
    (createChunks S C).length = numChunks S C := by
  simp [createChunks, numChunks]

lemma numChunks_mul_le (S C : Nat) (hS : 0 < S) :
    numChunks S C * C ≤ S + C - 1 := by
  have := Nat.div_mul_le_self (S + C - 1) C
  simpa [numChunks] using this

lemma le_numChunks_mul (S C : Nat) (hC : 0 < C) (hS : 0 < S) :
    S ≤ numChunks S C * C := by
  unfold numChunks
  by_cases hr : S % C = 0
  · have hdvd : C ∣ S := Nat.dvd_of_mod_eq_zero hr
    have h1 : S / C * C = S := Nat.div_mul_cancel hdvd
    have h2 : S / C ≤ (S + C - 1) / C := Nat.div_le_div_right (by omega)
    calc S = S / C * C := h1.symm
      _ ≤ (S + C - 1) / C * C := Nat.mul_le_mul_right C h2
  · have h4 := Nat.div_add_mod S C
    have h5 : S % C < C := Nat.mod_lt _ hC
    have h3 : S / C + 1 ≤ (S + C - 1) / C := by
      rw [Nat.le_div_iff_mul_le hC]
      have hq : (S / C + 1) * C = C * (S / C) + C := by ring
      rw [hq]
      omega
    have h6 : (S / C + 1) * C ≤ (S + C - 1) / C * C :=
      Nat.mul_le_mul_right C h3
    have h7 : (S / C + 1) * C = C * (S / C) + C := by ring
    omega

lemma createChunks_get (S C : Nat) (i : Nat)
    (h : i < (createChunks S C).length) :
    (createChunks S C)[i] =
      { id := 0
        downloadId := 0
        chunkIndex := i
        startByte := i * C
        endByte := if S ≤ i * C + C - 1 then S - 1 else i * C + C - 1
        downloaded := 0
        status := "pending" } := by
  simp [createChunks]

lemma createChunks_endByte_of_not_last (S C : Nat) (hC : 0 < C)
    (hS : 0 < S) (i : Nat) (h : i + 1 < numChunks S C) :
    ¬ S ≤ i * C + C - 1 := by
  intro hcontra
  -- chunk i is not the last one, so (i+1)*C ≤ (numChunks - 1)*C ≤ S - 1
  have h1 : i + 1 ≤ numChunks S C - 1 := by omega
  have h2 : (i + 1) * C ≤ (numChunks S C - 1) * C :=
    Nat.mul_le_mul_right C h1
  have h3 : numChunks S C * C ≤ S + C - 1 := numChunks_mul_le S C hS
  have h5 : (numChunks S C - 1) * C = numChunks S C * C - 1 * C :=
    Nat.sub_mul (numChunks S C) 1 C
  have h6 : (i + 1) * C = i * C + C := by ring
  have h7 : 1 * C = C := one_mul C
  omega

lemma createChunks_last_end (S C : Nat) (hC : 0 < C) (hS : 0 < S)
    (i : Nat) (h : i + 1 = numChunks S C) :
    S ≤ i * C + C - 1 ∨ i * C + C - 1 = S - 1 := by
  have h1 : S ≤ numChunks S C * C := le_numChunks_mul S C hC hS
  have h2 : (i + 1) * C = i * C + C := by ring
  rw [← h] at h1
  omega

/-- Start of chunk `i` of the plan. -/
lemma createChunks_start (S C : Nat) (i : Nat)
    (h : i < (createChunks S C).length) :
    ((createChunks S C)[i]).startByte = i * C := by
  rw [createChunks_get S C i h]

/-- End of every chunk stays below the file size. -/
lemma createChunks_end_lt (S C : Nat) (hC : 0 < C) (hS : 0 < S)
    (i : Nat) (h : i < (createChunks S C).length) :
    ((createChunks S C)[i]).endByte < S := by
  rw [createChunks_get S C i h]
  dsimp only
  by_cases h2 : S ≤ i * C + C - 1
  · rw [if_pos h2]
    omega
  · rw [if_neg h2]
    omega

/-- The byte just past chunk `i`'s end is `(i+1)*C` for non-last
chunks. -/
lemma createChunks_end_of_not_last (S C : Nat) (hC : 0 < C) (hS : 0 < S)
    (i : Nat) (hi : i < (createChunks S C).length)
    (h : i + 1 < numChunks S C) :
    ((createChunks S C)[i]).endByte = i * C + C - 1 := by
  rw [createChunks_get S C i hi]
  exact if_neg (createChunks_endByte_of_not_last S C hC hS i h)

/-- End byte of the last chunk is `S - 1`. -/
lemma createChunks_end_of_last (S C : Nat) (hC : 0 < C) (hS : 0 < S)
    (i : Nat) (hi : i < (createChunks S C).length)
    (h : i + 1 = numChunks S C) :
    ((createChunks S C)[i]).endByte = S - 1 := by
  rw [createChunks_get S C i hi]
  dsimp only
  by_cases h2 : S ≤ i * C + C - 1
  · rw [if_pos h2]
  · rw [if_neg h2]
    rcases createChunks_last_end S C hC hS i h with h1 | h1
    · exact absurd h1 h2
    · exact h1

/-- Each chunk's start is bounded by its end. -/
lemma createChunks_start_le_end (S C : Nat) (hC : 0 < C) (hS : 0 < S)
    (i : Nat) (hi : i < (createChunks S C).length) :
    ((createChunks S C)[i]).startByte ≤ ((createChunks S C)[i]).endByte := by
  rw [createChunks_length] at hi
  by_cases hlast : i + 1 = numChunks S C
  · rw [createChunks_start, createChunks_end_of_last S C hC hS i _ hlast]
    have h1 : S ≤ numChunks S C * C := le_numChunks_mul S C hC hS
    have h3 : numChunks S C * C ≤ S + C - 1 := numChunks_mul_le S C hS
    have h2 : (i + 1) * C = i * C + C := by ring
    have h4 : (i + 1) * C = numChunks S C * C := by rw [hlast]
    omega
  · rw [createChunks_start, createChunks_end_of_not_last S C hC hS i _ (by omega)]
    omega

/-- Chunks with smaller index end strictly before later chunks start. -/
lemma createChunks_disjoint (S C : Nat) (hC : 0 < C) (hS : 0 < S)
    (i j : Nat) (hi : i < (createChunks S C).length)
    (hj : j < (createChunks S C).length) (hij : i < j) :
    ((createChunks S C)[i]).endByte < ((createChunks S C)[j]).startByte := by
  rw [createChunks_length] at hi hj
  have hnotlast : i + 1 < numChunks S C := by omega
  rw [createChunks_end_of_not_last S C hC hS i (by rw [createChunks_length]; omega) hnotlast,
      createChunks_start S C j (by rw [createChunks_length]; omega)]
  have h1 : (i + 1) * C ≤ j * C := Nat.mul_le_mul_right C (by omega)
  have h2 : (i + 1) * C = i * C + C := by ring
  omega

/-- Every byte below the file size falls into chunk `b / C`. -/
lemma createChunks_cover (S C : Nat) (hC : 0 < C) (hS : 0 < S)
    (b : Nat) (hb : b < S) :
    ∃ i, ∃ h : i < (createChunks S C).length,
      ((createChunks S C)[i]).startByte ≤ b ∧
      b ≤ ((createChunks S C)[i]).endByte := by
  refine ⟨b / C, ?_, ?_, ?_⟩
  · rw [createChunks_length]
    -- b / C < numChunks since b < S ≤ numChunks * C
    have h1 : b < numChunks S C * C := lt_of_lt_of_le hb (le_numChunks_mul S C hC hS)
    by_contra hcon
    push_neg at hcon
    have h2 : numChunks S C * C ≤ b / C * C := Nat.mul_le_mul_right C hcon
    have h3 : b / C * C ≤ b := Nat.div_mul_le_self b C
    omega
  · rw [createChunks_start]
    exact Nat.div_mul_le_self b C
  · have hlen : b / C < (createChunks S C).length := by
      rw [createChunks_length]
      have h1 : b < numChunks S C * C := lt_of_lt_of_le hb (le_numChunks_mul S C hC hS)
      by_contra hcon
      push_neg at hcon
      have h2 : numChunks S C * C ≤ b / C * C := Nat.mul_le_mul_right C hcon
      have h3 : b / C * C ≤ b := Nat.div_mul_le_self b C
      omega
    rw [createChunks_get S C _ hlen]
    dsimp only
    have h4 := Nat.div_add_mod b C
    have h5 : b % C < C := Nat.mod_lt _ hC
    have h6 : C * (b / C) = b / C * C := by ring
    by_cases hcl : S ≤ b / C * C + C - 1
    · rw [if_pos hcl]
      omega
    · rw [if_neg hcl]
      omega

/-- Claim C1: for a file of size S greater than the chunk size C, the
chunk planner produces exactly `⌈S/C⌉` chunks, 0-indexed, contiguous,
non-overlapping and exactly covering `[0, S)`, chunk i starting at
`i*C` and ending at `start + C - 1` except the last, which ends at
`S - 1`; in particular for C = 5242880 and S = 12582912 the plan is
the three ranges [0,5242879], [5242880,10485759], [10485760,12582911]. -/
theorem chunk_planner_correct (S C : Nat) (hC : 0 < C) (hSC : C < S) :
    ChunkPlanOk S C ∧
    createChunks 12582912 5242880 =
      [{ id := 0, downloadId := 0, chunkIndex := 0, startByte := 0,
         endByte := 5242879, downloaded := 0, status := "pending" },
       { id := 0, downloadId := 0, chunkIndex := 1, startByte := 5242880,
         endByte := 10485759, downloaded := 0, status := "pending" },
       { id := 0, downloadId := 0, chunkIndex := 2, startByte := 10485760,
         endByte := 12582911, downloaded := 0, status := "pending" }] := by
  have hS : 0 < S := by omega
  refine ⟨⟨createChunks_length S C, ?_, ?_, ?_, ?_⟩, by decide⟩
  · intro i h
    refine ⟨?_, createChunks_start S C i h, ?_, ?_, createChunks_end_lt S C hC hS i h⟩
    · rw [createChunks_get S C i h]
    · intro hlt
      rw [createChunks_length] at hlt
      exact createChunks_end_of_not_last S C hC hS i h hlt
    · intro heq
      rw [createChunks_length] at heq
      exact createChunks_end_of_last S C hC hS i h heq
  · intro i h
    have hi : i < (createChunks S C).length := by omega
    rw [createChunks_start S C (i + 1) h,
        createChunks_end_of_not_last S C hC hS i hi (by rw [← createChunks_length]; omega)]
    have h2 : (i + 1) * C = i * C + C := by ring
    omega
  · exact fun i j hi hj hij => createChunks_disjoint S C hC hS i j hi hj hij
  · exact fun b hb => createChunks_cover S C hC hS b hb

/-- Witness for `chunk_planner_correct` at the spec's scenario
(chunk size 5,242,880 and file size 12,582,912). -/
theorem chunk_planner_correct_witness :
    ((0 : Nat) < 5242880 ∧ 5242880 < 12582912) ∧
    (ChunkPlanOk 12582912 5242880 ∧
      createChunks 12582912 5242880 =
        [{ id := 0, downloadId := 0, chunkIndex := 0, startByte := 0,
           endByte := 5242879, downloaded := 0, status := "pending" },
         { id := 0, downloadId := 0, chunkIndex := 1, startByte := 5242880,
           endByte := 10485759, downloaded := 0, status := "pending" },
         { id := 0, downloadId := 0, chunkIndex := 2, startByte := 10485760,
           endByte := 12582911, downloaded := 0, status := "pending" }]) :=
  ⟨⟨by decide, by decide⟩,
   chunk_planner_correct 12582912 5242880 (by decide) (by decide)⟩

/-! ## Lemmas about resumed layouts -/

lemma resumeChunks_get (S C : Nat) (st : Nat → String) (dl : Nat → Nat)
    (i : Nat) (h : i < (resumeChunks S C st dl).length)
    (hi : i < (createChunks S C).length) :
    (resumeChunks S C st dl)[i] =
      { (createChunks S C).get ⟨i, hi⟩ with
        status := st i, downloaded := dl i } := by
  simp only [resumeChunks, List.getElem_map, List.get_eq_getElem]
  rw [createChunks_get S C i hi]

lemma resumeChunks_length (S C : Nat) (st : Nat → String) (dl : Nat → Nat) :
    (resumeChunks S C st dl).length = (createChunks S C).length := by
  simp [resumeChunks]

/-- Two distinct chunks of a resumed layout cover disjoint bytes. -/
lemma resumeChunks_no_shared_byte (S C : Nat) (hC : 0 < C) (hS : 0 < S)
    (st : Nat → String) (dl : Nat → Nat) (i j : Nat)
    (hi : i < (resumeChunks S C st dl).length)
    (hj : j < (resumeChunks S C st dl).length) (hij : i ≠ j) (b : Nat)
    (h1 : ((resumeChunks S C st dl)[i]).startByte ≤ b)
    (h2 : b ≤ ((resumeChunks S C st dl)[i]).endByte)
    (h3 : ((resumeChunks S C st dl)[j]).startByte ≤ b)
    (h4 : b ≤ ((resumeChunks S C st dl)[j]).endByte) : False := by
  have hi' : i < (createChunks S C).length := by
    rw [resumeChunks_length] at hi; exact hi
  have hj' : j < (createChunks S C).length := by
    rw [resumeChunks_length] at hj; exact hj
  rw [resumeChunks_get S C st dl i hi hi'] at h1 h2
  rw [resumeChunks_get S C st dl j hj hj'] at h3 h4
  simp only [List.get_eq_getElem] at h1 h2 h3 h4
  rcases Nat.lt_or_ge i j with hlt | hge
  · have := createChunks_disjoint S C hC hS i j hi' hj' hlt
    omega
  · have hlt : j < i := by omega
    have := createChunks_disjoint S C hC hS j i hj' hi' hlt
    omega

/-- Membership form: two distinct chunk rows of a resumed layout never
cover a common byte. -/
lemma resumeChunks_mem_no_shared_byte (S C : Nat) (hC : 0 < C)
    (hS : 0 < S) (st : Nat → String) (dl : Nat → Nat) (c₁ c₂ : Chunk)
    (h1 : c₁ ∈ resumeChunks S C st dl) (h2 : c₂ ∈ resumeChunks S C st dl)
    (hne : c₁ ≠ c₂) (b : Nat)
    (hb1 : c₁.startByte ≤ b) (hb2 : b ≤ c₁.endByte)
    (hb3 : c₂.startByte ≤ b) (hb4 : b ≤ c₂.endByte) : False := by
  obtain ⟨⟨i, hilen⟩, hieq⟩ := List.mem_iff_get.mp h1
  obtain ⟨⟨j, hjlen⟩, hjeq⟩ := List.mem_iff_get.mp h2
  simp only [List.get_eq_getElem] at hieq hjeq
  by_cases hij : i = j
  · apply hne
    rw [← hieq, ← hjeq]
    exact congrArg (resumeChunks S C st dl).get
      (Fin.ext (by simpa using hij))
  · rw [← hieq] at hb1 hb2
    rw [← hjeq] at hb3 hb4
    exact resumeChunks_no_shared_byte S C hC hS st dl i j hilen hjlen hij b
      hb1 hb2 hb3 hb4

/-- Every chunk row of a resumed layout has its start at or before its
end. -/
lemma resumeChunks_mem_start_le_end (S C : Nat) (hC : 0 < C)
    (hS : 0 < S) (st : Nat → String) (dl : Nat → Nat) (c : Chunk)
    (h : c ∈ resumeChunks S C st dl) : c.startByte ≤ c.endByte := by
  obtain ⟨⟨i, hilen⟩, hieq⟩ := List.mem_iff_get.mp h
  simp only [List.get_eq_getElem] at hieq
  have hilen' : i < (createChunks S C).length := by
    rw [← resumeChunks_length S C st dl]; exact hilen
  have hle := createChunks_start_le_end S C hC hS i hilen'
  rw [← hieq, resumeChunks_get S C st dl i hilen hilen']
  simpa [List.get_eq_getElem] using hle

/-- Claim C2: for a resumed chunked download over the planner's layout
(statuses and per-chunk downloaded counts as persisted, each count at
most the chunk's length), (1) every non-completed chunk's GET carries
Range `bytes=(startByte + downloaded)-endByte`, (2) no byte of a
completed chunk is requested, and (3) no byte in the
already-downloaded prefix `[startByte, startByte + downloaded)` of any
chunk is requested. -/
theorem resume_never_rerequests (S C : Nat) (hC : 0 < C) (hSC : C < S)
    (st : Nat → String) (dl : Nat → Nat)
    (hdl : ∀ c ∈ resumeChunks S C st dl,
      c.downloaded ≤ c.endByte - c.startByte + 1) :
    (∀ c ∈ resumeChunks S C st dl, c.status ≠ "completed" →
      chunkRequest c ∈ planChunkRequests (resumeChunks S C st dl)) ∧
    (∀ c ∈ resumeChunks S C st dl, c.status = "completed" →
      ∀ b, RequestedByte (planChunkRequests (resumeChunks S C st dl)) b →
        ¬(c.startByte ≤ b ∧ b ≤ c.endByte)) ∧
    (∀ c ∈ resumeChunks S C st dl,
      ∀ b, RequestedByte (planChunkRequests (resumeChunks S C st dl)) b →
        ¬(c.startByte ≤ b ∧ b < c.startByte + c.downloaded)) := by
  have hS : 0 < S := by omega
  -- unpack a requested byte into its source chunk
  have hsrc : ∀ b, RequestedByte (planChunkRequests (resumeChunks S C st dl)) b →
      ∃ c' ∈ resumeChunks S C st dl, c'.status ≠ "completed" ∧
        c'.startByte + c'.downloaded ≤ b ∧ b ≤ c'.endByte := by
    intro b hb
    obtain ⟨r, hr, hrb1, hrb2⟩ := hb
    simp only [planChunkRequests, List.mem_map, List.mem_filter] at hr
    obtain ⟨c', ⟨hc'mem, hc'status⟩, hc'req⟩ := hr
    subst hc'req
    refine ⟨c', hc'mem, by simpa using hc'status, ?_, ?_⟩
    · simpa [chunkRequest] using hrb1
    · simpa [chunkRequest] using hrb2
  refine ⟨?_, ?_, ?_⟩
  · intro c hc hcst
    refine List.mem_map_of_mem chunkRequest ?_
    refine List.mem_filter.mpr ⟨hc, ?_⟩
    simpa using hcst
  · intro c hc hcst b hb ⟨hb1, hb2⟩
    obtain ⟨c', hc'mem, hc'st, hib1, hib2⟩ := hsrc b hb
    have hne : c' ≠ c := fun heq => hc'st (heq ▸ hcst)
    exact resumeChunks_mem_no_shared_byte S C hC hS st dl c' c hc'mem hc hne b
      (by omega) hib2 hb1 hb2
  · intro c hc b hb ⟨hb1, hb2⟩
    obtain ⟨c', hc'mem, hc'st, hib1, hib2⟩ := hsrc b hb
    by_cases heq : c' = c
    · subst heq
      omega
    · have hdl' : c.downloaded ≤ c.endByte - c.startByte + 1 := hdl c hc
      have hse : c.startByte ≤ c.endByte :=
        resumeChunks_mem_start_le_end S C hC hS st dl c hc
      exact resumeChunks_mem_no_shared_byte S C hC hS st dl c' c hc'mem hc heq b
        (by omega) hib2 hb1 (by omega)

/-- Witness for `resume_never_rerequests`: the spec's scenario, chunk
0 completed and chunk 1 resumed after 1,048,576 bytes. -/
theorem resume_never_rerequests_witness :
    ((0 : Nat) < 5242880 ∧ 5242880 < 12582912 ∧
      (∀ c ∈ resumeChunks 12582912 5242880
          (fun i => if i = 0 then "completed" else "pending")
          (fun i => if i = 1 then 1048576 else 0),
        c.downloaded ≤ c.endByte - c.startByte + 1)) ∧
    ((∀ c ∈ resumeChunks 12582912 5242880
        (fun i => if i = 0 then "completed" else "pending")
        (fun i => if i = 1 then 1048576 else 0), c.status ≠ "completed" →
        chunkRequest c ∈ planChunkRequests (resumeChunks 12582912 5242880
          (fun i => if i = 0 then "completed" else "pending")
          (fun i => if i = 1 then 1048576 else 0))) ∧
      (∀ c ∈ resumeChunks 12582912 5242880
          (fun i => if i = 0 then "completed" else "pending")
          (fun i => if i = 1 then 1048576 else 0), c.status = "completed" →
        ∀ b, RequestedByte (planChunkRequests (resumeChunks 12582912 5242880
            (fun i => if i = 0 then "completed" else "pending")
            (fun i => if i = 1 then 1048576 else 0))) b →
          ¬(c.startByte ≤ b ∧ b ≤ c.endByte)) ∧
      (∀ c ∈ resumeChunks 12582912 5242880
          (fun i => if i = 0 then "completed" else "pending")
          (fun i => if i = 1 then 1048576 else 0),
        ∀ b, RequestedByte (planChunkRequests (resumeChunks 12582912 5242880
            (fun i => if i = 0 then "completed" else "pending")
            (fun i => if i = 1 then 1048576 else 0))) b →
          ¬(c.startByte ≤ b ∧ b < c.startByte + c.downloaded))) :=
  ⟨⟨by decide, by decide, by decide⟩,
   resume_never_rerequests 12582912 5242880 (by decide) (by decide)
     (fun i => if i = 0 then "completed" else "pending")
     (fun i => if i = 1 then 1048576 else 0) (by decide)⟩

/-! ## Simple-mode content sniffing (C3) -/

/-- Nonempty patterns never occur in the empty string. -/
lemma goContains_empty (m : String) (hm : m ≠ "") :
    goContains "" m = false := by
  have hm' : m.data ≠ [] := by
    intro h
    apply hm
    apply String.ext
    exact h
  unfold goContains
  cases hml : m.data with
  | nil => exact absurd hml hm'
  | cons a rest => rfl

/-- A string of length zero is the empty string. -/
lemma string_length_zero (s : String) (h : s.length = 0) : s = "" := by
  apply String.ext
  have h2 : s.data.length = 0 := h
  exact List.eq_nil_of_length_eq_zero h2

/-- Claim C3: a simple-mode transfer (a 200 response) whose sniffed
first 2048 bytes contain an HTML marker (such as a body beginning with
a doctype tag) returns ErrHTMLContent with nothing written to the temp
file and no rename; and — in both modes — the temp file is renamed
onto the destination path exactly when the single stream, respectively
every chunk, completes successfully. -/
theorem html_sniff_aborts_before_write :
    (∀ resp : HTTPResponse, resp.statusCode = 200 →
      (∃ m ∈ htmlMarkers,
        goContains (strToLower (strTake resp.body 2048)) m = true) →
      downloadSimple resp =
        { result := .errHTMLContent, tempWrites := "", renamed := false }) ∧
    (∀ resp : HTTPResponse,
      (downloadSimple resp).renamed = true ↔
        (downloadSimple resp).result = .ok) ∧
    (∀ (chunks : List Chunk) (traces : Nat → List (Nat × ReadErr)),
      downloadChunkedRenamed chunks traces = true ↔
        ∀ c ∈ chunks, c.status = "completed" ∨
          (downloadChunkRun ⟨c.downloaded, c.downloaded⟩
            (traces c.chunkIndex)).2 = ChunkOutcome.completed) := by
  refine ⟨?_, ?_, ?_⟩
  · intro resp h200 hmark
    unfold downloadSimple
    rw [if_neg (by simp [h200])]
    by_cases hct : goContains resp.contentType "text/html"
    · rw [if_pos hct]
    · rw [if_neg hct]
      have hcond : 0 < (strTake resp.body 2048).length ∧
          (htmlMarkers.any fun m =>
            goContains (strToLower (strTake resp.body 2048)) m) := by
        obtain ⟨m, hmmem, hmc⟩ := hmark
        constructor
        · by_contra hlen
          push_neg at hlen
          have h0 : (strTake resp.body 2048).length = 0 := by omega
          have hempty : strTake resp.body 2048 = "" := string_length_zero _ h0
          rw [hempty] at hmc
          have htl : strToLower "" = "" := rfl
          rw [htl] at hmc
          have hnonempty : ∀ m' ∈ htmlMarkers, m' ≠ "" := by decide
          have hne : m ≠ "" := hnonempty m hmmem
          rw [goContains_empty m hne] at hmc
          exact Bool.false_ne_true hmc
        · exact List.any_eq_true.mpr ⟨m, hmmem, hmc⟩
      rw [if_pos hcond]
  · intro resp
    unfold downloadSimple
    split
    · simp
    · split
      · simp
      · split
        · simp
        · simp
  · intro chunks traces
    unfold downloadChunkedRenamed
    rw [List.all_eq_true]
    constructor
    · intro h c hc
      have := h c hc
      simpa using this
    · intro h c hc
      have := h c hc
      simpa using this

/-- Witness for `html_sniff_aborts_before_write`: a 200 response whose
body begins with the claim's marker. -/
theorem html_sniff_aborts_before_write_witness :
    downloadSimple
      (HTTPResponse.mk 200 "application/pdf"
        "<!DOCTYPE html><html><head></head></html>") =
      SimpleOutcome.mk SimpleResult.errHTMLContent "" false :=
  html_sniff_aborts_before_write.1
    (HTTPResponse.mk 200 "application/pdf"
      "<!DOCTYPE html><html><head></head></html>")
    rfl ⟨"<!doctype html", by decide, by decide⟩

/-! ## Error categorization (C6) -/

/-- Claim C6 names "EOF" among the retryable conditions, and the
source's own retryablePatterns slice lists "EOF" — but the scan
lower-cases the error text before the substring test, so the pattern
can never match: io.EOF ("EOF") and io.ErrUnexpectedEOF
("unexpected EOF") are categorized NonRetryable. -/
theorem categorize_eof_pattern_dead :
    "EOF" ∈ retryablePatterns ∧
    CategorizeError (some (GoError.mk "EOF" false)) 0 =
      ErrorCategory.nonRetryable ∧
    CategorizeError (some (GoError.mk "unexpected EOF" false)) 0 =
      ErrorCategory.nonRetryable ∧
    CategorizeError (some (GoError.mk "connection reset by peer" false)) 0 =
      ErrorCategory.retryable := by
  decide

/-! ## Backoff bound and monotone expectation (C7) -/

/-- Capping at a ceiling is monotone. -/
lemma capIf_mono (m x y : ℚ) (h : x ≤ y) :
    (if m < x then m else x) ≤ (if m < y then m else y) := by
  split_ifs <;> linarith

/-- Counterexample to claim C7 as stated: with multiplier 1/2 (allowed
by the claim, which only requires baseDelay ≤ maxDelay), the expected
backoff strictly decreases from attempt 0 to attempt 1. -/
theorem backoff_expectation_decreasing_counterexample :
    (RetryConfig.mk 3 2 4 (1/2)).baseDelay ≤
      (RetryConfig.mk 3 2 4 (1/2)).maxDelay ∧
    ExpectedBackoff 1 (RetryConfig.mk 3 2 4 (1/2)) <
      ExpectedBackoff 0 (RetryConfig.mk 3 2 4 (1/2)) := by
  constructor
  · norm_num
  · norm_num [ExpectedBackoff, cappedDelay]

/-- Claim C7, amended: for a configuration with 0 ≤ baseDelay ≤
maxDelay and multiplier ≥ 1 (the claim as written also admits
multipliers below 1, for which the expectation decreases), the backoff
never exceeds maxDelay * 1.25, its expected value over the uniform
jitter draw is non-decreasing in the attempt number up to the cap, and
the jitter is symmetric about the capped exponential delay (so that
delay is indeed the expected value). -/
theorem backoff_bound_and_monotone (cfg : RetryConfig) (u : ℚ) (attempt : Nat)
    (hbase : 0 ≤ cfg.baseDelay) (hbm : cfg.baseDelay ≤ cfg.maxDelay)
    (hmult : 1 ≤ cfg.multiplier) (hu0 : 0 ≤ u) (hu1 : u < 1) :
    CalculateBackoff attempt cfg u ≤ cfg.maxDelay * (5/4) ∧
    ExpectedBackoff attempt cfg ≤ ExpectedBackoff (attempt + 1) cfg ∧
    CalculateBackoff attempt cfg u + CalculateBackoff attempt cfg (1 - u) =
      2 * ExpectedBackoff attempt cfg := by
  have hmax0 : 0 ≤ cfg.maxDelay := le_trans hbase hbm
  have hmult0 : 0 ≤ cfg.multiplier := le_trans zero_le_one hmult
  have hcap0 : ∀ a, 0 ≤ cappedDelay a cfg := by
    intro a
    unfold cappedDelay
    split_ifs with h
    · exact hmax0
    · exact mul_nonneg hbase (pow_nonneg hmult0 a)
  have hcaple : ∀ a, cappedDelay a cfg ≤ cfg.maxDelay := by
    intro a
    unfold cappedDelay
    split_ifs with h
    · exact le_refl _
    · linarith [not_lt.mp h]
  refine ⟨?_, ?_, ?_⟩
  · unfold CalculateBackoff
    by_cases h0 : attempt = 0
    · rw [if_pos h0]
      linarith
    · rw [if_neg h0]
      have h1 : cappedDelay attempt cfg * (1/4) * (u * 2 - 1) ≤
          cappedDelay attempt cfg * (1/4) * 1 :=
        mul_le_mul_of_nonneg_left (by linarith)
          (by
            have := hcap0 attempt
            linarith)
      have h2 := hcap0 attempt
      have h3 := hcaple attempt
      linarith
  · unfold ExpectedBackoff
    by_cases h0 : attempt = 0
    · subst h0
      rw [if_pos rfl, if_neg (by omega : ¬(0 + 1 = 0))]
      unfold cappedDelay
      split_ifs with hcap
      · exact hbm
      · have hpow : cfg.multiplier ^ (0 + 1) = cfg.multiplier := by ring
        rw [hpow]
        nlinarith
    · rw [if_neg h0, if_neg (by omega : ¬(attempt + 1 = 0))]
      unfold cappedDelay
      apply capIf_mono
      have hpow : cfg.multiplier ^ attempt ≤ cfg.multiplier ^ (attempt + 1) := by
        calc cfg.multiplier ^ attempt
            = cfg.multiplier ^ attempt * 1 := by ring
          _ ≤ cfg.multiplier ^ attempt * cfg.multiplier := by
              exact mul_le_mul_of_nonneg_left hmult
                (pow_nonneg hmult0 attempt)
          _ = cfg.multiplier ^ (attempt + 1) := by ring
      exact mul_le_mul_of_nonneg_left hpow hbase
  · unfold CalculateBackoff ExpectedBackoff
    by_cases h0 : attempt = 0
    · rw [if_pos h0, if_pos h0, if_pos h0]
      ring
    · rw [if_neg h0, if_neg h0, if_neg h0]
      ring

/-- Witness for `backoff_bound_and_monotone` at a concrete sane
configuration (base 2 ns, max 4 ns, multiplier 2, draw 1/2). -/
theorem backoff_bound_and_monotone_witness :
    ((0 : ℚ) ≤ (RetryConfig.mk 3 2 4 2).baseDelay ∧
      (RetryConfig.mk 3 2 4 2).baseDelay ≤ (RetryConfig.mk 3 2 4 2).maxDelay ∧
      1 ≤ (RetryConfig.mk 3 2 4 2).multiplier ∧
      (0 : ℚ) ≤ 1/2 ∧ (1/2 : ℚ) < 1) ∧
    (CalculateBackoff 3 (RetryConfig.mk 3 2 4 2) (1/2) ≤
        (RetryConfig.mk 3 2 4 2).maxDelay * (5/4) ∧
      ExpectedBackoff 3 (RetryConfig.mk 3 2 4 2) ≤
        ExpectedBackoff (3 + 1) (RetryConfig.mk 3 2 4 2) ∧
      CalculateBackoff 3 (RetryConfig.mk 3 2 4 2) (1/2) +
          CalculateBackoff 3 (RetryConfig.mk 3 2 4 2) (1 - 1/2) =
        2 * ExpectedBackoff 3 (RetryConfig.mk 3 2 4 2)) :=
  ⟨⟨by norm_num, by norm_num, by norm_num, by norm_num, by norm_num⟩,
   backoff_bound_and_monotone (RetryConfig.mk 3 2 4 2) (1/2) 3
     (by norm_num) (by norm_num) (by norm_num) (by norm_num) (by norm_num)⟩

/-! ## Range-capability probing and path selection (C8) -/

/-- Counterexample to claim C8 as stated: the claim has the fallback
`Range: bytes=0-0` GET issued whenever the HEAD probe is rejected or
ambiguous, but a HEAD rejected at the HTTP level — here a 405
Method Not Allowed response, which is also ambiguous in that it
carries no Accept-Ranges header — triggers no fallback: the probe
reports no range support and the HEAD's ContentLength (-1, unknown),
even though the fallback GET would have answered 206 with the true
total. -/
theorem head_rejected_no_fallback_counterexample :
    checkRangeSupport (some (HeadResp.mk 405 "" (-1)))
      (GetProbeResp.mk 206 "bytes 0-0/12582912" 1) =
      ProbeResult.mk false (-1) false := by
  decide

/-- Claim C8, amended: the fallback `Range: bytes=0-0` GET is issued
exactly when the HEAD round-trip fails at the transport level; every
received HEAD response — even an HTTP-level rejection such as 405, or
one with no Accept-Ranges header — decides range support by
`Accept-Ranges == "bytes"` alone, with no fallback.  When the fallback
is issued, support is inferred exactly from a 206 response, with the
total parsed from Content-Range (otherwise the GET's ContentLength is
used); and unless ranging is supported with total size above the
chunk size, the transfer takes the simple path, which creates no
chunk rows. -/
theorem range_probe_and_path_selection :
    (∀ (h : HeadResp) (g : GetProbeResp),
      (checkRangeSupport (some h) g).fallbackIssued = false ∧
      ((checkRangeSupport (some h) g).supportsRange = true ↔
        h.acceptRanges = "bytes") ∧
      (checkRangeSupport (some h) g).totalSize = h.contentLength) ∧
    (∀ g : GetProbeResp,
      (checkRangeSupport none g).fallbackIssued = true ∧
      ((checkRangeSupport none g).supportsRange = true ↔ g.statusCode = 206) ∧
      (g.statusCode = 206 →
        (checkRangeSupport none g).totalSize =
          parseContentRangeTotal g.contentRange) ∧
      (g.statusCode ≠ 206 →
        (checkRangeSupport none g).totalSize = g.contentLength)) ∧
    (∀ (sr : Bool) (total chunkSize : Int),
      (¬(sr = true ∧ chunkSize < total) →
        selectMode sr total chunkSize = .simple) ∧
      (sr = true → chunkSize < total →
        selectMode sr total chunkSize = .chunked)) ∧
    (∀ S C : Nat, chunkRowsCreated .simple S C = []) ∧
    parseContentRangeTotal "bytes 0-0/12582912" = 12582912 := by
  refine ⟨?_, ?_, ?_, ?_, by decide⟩
  · intro h g
    refine ⟨rfl, ?_, rfl⟩
    simp [checkRangeSupport]
  · intro g
    by_cases h206 : g.statusCode = 206
    · refine ⟨?_, ?_, ?_, ?_⟩
      · simp [checkRangeSupport, h206]
      · simp [checkRangeSupport, h206]
      · intro hyp
        simp [checkRangeSupport, h206]
      · intro hyp
        exact absurd h206 hyp
    · refine ⟨?_, ?_, ?_, ?_⟩
      · simp [checkRangeSupport, h206]
      · simp [checkRangeSupport, h206]
      · intro hyp
        exact absurd hyp h206
      · intro hyp
        simp [checkRangeSupport, h206]
  · intro sr total chunkSize
    constructor
    · intro hnot
      unfold selectMode
      rw [if_neg hnot]
    · intro hsr hlt
      unfold selectMode
      rw [if_pos ⟨hsr, hlt⟩]
  · intro S C
    rfl

/-! ## Status writes and the state machine (C9) -/

/-- Counterexample to claim C9: a pause call on a Completed download
moves it to Paused — `Manager.PauseDownload` calls
`db.UpdateStatus(id, StatusPaused, "")` unconditionally — although the
state machine has no Completed → Paused edge. -/
theorem pause_on_completed_counterexample :
    (PauseDownload
      (Download.mk DownloadStatus.completed 100 0 "" "book.pdf" none)).status =
      DownloadStatus.paused ∧
    specTransition DownloadStatus.completed DownloadStatus.paused = false := by
  decide

/-- Claim C9, amended: neither the store nor the manager guards status
writes with the current status: `UpdateStatus` stores exactly the
requested status whatever the row held, pause always yields Paused,
the start-of-download write always yields Downloading, mark-completed
always yields Completed and reset always yields Pending — so the
spec's state machine describes the intended flows but is not enforced,
and in particular a pause call does move a Completed download to
Paused. -/
theorem status_writes_unguarded (d : Download) (s : DownloadStatus)
    (msg fp : String) :
    (UpdateStatus d s msg).status = s ∧
    (UpdateStatus d s msg).errorMessage = msg ∧
    (PauseDownload d).status = DownloadStatus.paused ∧
    (startDownloadStatus d).status = DownloadStatus.downloading ∧
    (MarkCompleted d fp).status = DownloadStatus.completed ∧
    (resetRowUpdate d).status = DownloadStatus.pending :=
  ⟨rfl, rfl, rfl, rfl, rfl, rfl⟩

/-! ## Store atomicity (C4) -/

/-- Counterexample to claim C4: `ResetDownload` runs its downloads-row
UPDATE and its chunk DELETE as two separate statements, so between
them a reader observes the download already reset (status Pending,
zero progress) while the chunk row still exists. -/
theorem reset_not_atomic_counterexample :
    ∃ s ∈ observables
        (StoreState.mk
          (Download.mk DownloadStatus.failed 50 2 "boom" "f" (some "t"))
          [Chunk.mk 1 1 0 0 99 50 "pending"])
        resetDownloadScript,
      s.download.status = DownloadStatus.pending ∧
      s.download.downloadedSize = 0 ∧
      s.chunks ≠ [] := by
  decide

/-- Claim C4, amended: the combined chunk-bytes/aggregate-bytes update
(`UpdateProgressAtomic`) is a single transaction — every state a
reader can observe is either the initial state or the state with both
writes applied — and `CreateChunks` is likewise transactional, but
`ResetDownload` is two separate statements: when the download has
chunk rows, a reader can observe the row already reset while its
chunk rows still exist. -/
theorem progress_update_atomic_but_reset_is_not (init : StoreState)
    (cid cd td : Nat) (hne : init.chunks ≠ []) :
    (∀ s ∈ observables init (updateProgressAtomicScript cid cd td),
      s = init ∨
      (s.download.downloadedSize = td ∧
        s.chunks = init.chunks.map fun c =>
          if c.id = cid then { c with downloaded := cd } else c)) ∧
    (∃ s ∈ observables init resetDownloadScript,
      s.download.status = DownloadStatus.pending ∧
      s.download.downloadedSize = 0 ∧
      s.download.retryCount = 0 ∧
      s.download.errorMessage = "" ∧
      s.chunks = init.chunks ∧ s.chunks ≠ []) := by
  constructor
  · intro s hs
    have hobs : observables init (updateProgressAtomicScript cid cd td) =
        [init,
         StoreState.mk
           { init.download with downloadedSize := td }
           (init.chunks.map fun c =>
             if c.id = cid then { c with downloaded := cd } else c)] := rfl
    rw [hobs] at hs
    rcases List.mem_pair.mp hs with h | h
    · exact Or.inl h
    · subst h
      exact Or.inr ⟨rfl, rfl⟩
  · refine ⟨StoreState.mk (resetRowUpdate init.download) init.chunks,
      ?_, rfl, rfl, rfl, rfl, rfl, hne⟩
    have hobs : observables init resetDownloadScript =
        [init,
         StoreState.mk (resetRowUpdate init.download) init.chunks,
         StoreState.mk (resetRowUpdate init.download) []] := rfl
    rw [hobs]
    exact List.mem_cons_of_mem _ (List.mem_cons_self _ _)

/-- Witness for `progress_update_atomic_but_reset_is_not` at a
concrete one-chunk store state. -/
theorem progress_update_atomic_but_reset_is_not_witness :
    ((StoreState.mk
        (Download.mk DownloadStatus.downloading 50 0 "" "f" (some "t"))
        [Chunk.mk 7 1 0 0 99 50 "pending"]).chunks ≠ [] ∧
      (∀ s ∈ observables
          (StoreState.mk
            (Download.mk DownloadStatus.downloading 50 0 "" "f" (some "t"))
            [Chunk.mk 7 1 0 0 99 50 "pending"])
          (updateProgressAtomicScript 7 60 110),
        s = StoreState.mk
            (Download.mk DownloadStatus.downloading 50 0 "" "f" (some "t"))
            [Chunk.mk 7 1 0 0 99 50 "pending"] ∨
        (s.download.downloadedSize = 110 ∧
          s.chunks = [Chunk.mk 7 1 0 0 99 50 "pending"].map fun c =>
            if c.id = 7 then { c with downloaded := 60 } else c)) ∧
      (∃ s ∈ observables
          (StoreState.mk
            (Download.mk DownloadStatus.downloading 50 0 "" "f" (some "t"))
            [Chunk.mk 7 1 0 0 99 50 "pending"])
          resetDownloadScript,
        s.download.status = DownloadStatus.pending ∧
        s.download.downloadedSize = 0 ∧
        s.download.retryCount = 0 ∧
        s.download.errorMessage = "" ∧
        s.chunks = [Chunk.mk 7 1 0 0 99 50 "pending"] ∧ s.chunks ≠ [])) := by
  refine ⟨by decide, ?_⟩
  exact progress_update_atomic_but_reset_is_not
    (StoreState.mk
      (Download.mk DownloadStatus.downloading 50 0 "" "f" (some "t"))
      [Chunk.mk 7 1 0 0 99 50 "pending"])
    7 60 110 (by decide)

/-! ## Checkpoint interval and crash-loss bound (C5) -/

/-- Counterexample to claim C5: the loop persists only when the
counter lands exactly on a multiple of 256 KiB; fourteen reads of
20,000 bytes (each below the 32 KiB buffer, as partial reads are)
leave 280,000 bytes downloaded and none persisted, exceeding the
interval. -/
theorem checkpoint_bound_violated_counterexample :
    (runReads (ChunkFetchState.mk 0 0) (List.replicate 14 20000)).downloaded =
      280000 ∧
    (runReads (ChunkFetchState.mk 0 0)
      (List.replicate 14 20000)).persistedDownloaded = 0 ∧
    checkpointInterval < 280000 - 0 := by
  decide

/-- One full-buffer read keeps the exact-checkpoint invariant. -/
lemma stepRead_full (st : ChunkFetchState) (hd : st.downloaded % 32768 = 0)
    (hp : st.persistedDownloaded =
      st.downloaded - st.downloaded % checkpointInterval) :
    (stepRead st 32768).downloaded % 32768 = 0 ∧
    (stepRead st 32768).persistedDownloaded =
      (stepRead st 32768).downloaded -
        (stepRead st 32768).downloaded % checkpointInterval := by
  unfold stepRead checkpointInterval at *
  rw [if_neg (by norm_num : ¬(32768 = 0))]
  by_cases h : (st.downloaded + 32768) % (256 * 1024) = 0
  · rw [if_pos h]
    dsimp only
    omega
  · rw [if_neg h]
    dsimp only
    omega

/-- The invariant holds along any trace of full-buffer reads. -/
lemma runReads_full_invariant (ns : List Nat)
    (hfull : ∀ n ∈ ns, n = 32768) (st : ChunkFetchState)
    (hd : st.downloaded % 32768 = 0)
    (hp : st.persistedDownloaded =
      st.downloaded - st.downloaded % checkpointInterval) :
    (runReads st ns).downloaded % 32768 = 0 ∧
    (runReads st ns).persistedDownloaded =
      (runReads st ns).downloaded -
        (runReads st ns).downloaded % checkpointInterval := by
  induction ns generalizing st with
  | nil => exact ⟨hd, hp⟩
  | cons n rest ih =>
    have hn : n = 32768 := hfull n (List.mem_cons_self _ _)
    subst hn
    have hstep := stepRead_full st hd hp
    have hrec := ih (fun m hm => hfull m (List.mem_cons_of_mem _ hm))
      (stepRead st 32768) hstep.1 hstep.2
    simpa [runReads, List.foldl_cons] using hrec

/-- Claim C5, amended: the loop persists the chunk's downloaded count
and the aggregate size together (via the store's atomic combined
update), but only at reads landing the counter exactly on a multiple
of 256 KiB; when every read returns the full 32 KiB buffer this makes
the persisted value the last multiple of 256 KiB, so the unpersisted
amount stays below the interval — with smaller (partial) reads the
counter can step over every multiple and the bound fails. -/
theorem checkpoint_bound_full_buffer_reads (ns : List Nat)
    (hfull : ∀ n ∈ ns, n = 32768) :
    (runReads (ChunkFetchState.mk 0 0) ns).persistedDownloaded =
      (runReads (ChunkFetchState.mk 0 0) ns).downloaded -
        (runReads (ChunkFetchState.mk 0 0) ns).downloaded %
          checkpointInterval ∧
    (runReads (ChunkFetchState.mk 0 0) ns).downloaded -
      (runReads (ChunkFetchState.mk 0 0) ns).persistedDownloaded <
        checkpointInterval := by
  have h := runReads_full_invariant ns hfull (ChunkFetchState.mk 0 0)
    (by norm_num) (by norm_num)
  refine ⟨h.2, ?_⟩
  have hlt : (runReads (ChunkFetchState.mk 0 0) ns).downloaded %
      checkpointInterval < checkpointInterval :=
    Nat.mod_lt _ (by norm_num [checkpointInterval])
  omega

/-- Witness for `checkpoint_bound_full_buffer_reads`: eight full
32 KiB reads (exactly one checkpoint). -/
theorem checkpoint_bound_full_buffer_reads_witness :
    (∀ n ∈ List.replicate 8 32768, n = 32768) ∧
    ((runReads (ChunkFetchState.mk 0 0)
        (List.replicate 8 32768)).persistedDownloaded =
      (runReads (ChunkFetchState.mk 0 0)
        (List.replicate 8 32768)).downloaded -
        (runReads (ChunkFetchState.mk 0 0)
          (List.replicate 8 32768)).downloaded % checkpointInterval ∧
      (runReads (ChunkFetchState.mk 0 0)
        (List.replicate 8 32768)).downloaded -
        (runReads (ChunkFetchState.mk 0 0)
          (List.replicate 8 32768)).persistedDownloaded <
          checkpointInterval) :=
  ⟨by decide, checkpoint_bound_full_buffer_reads
    (List.replicate 8 32768) (by decide)⟩

/-! ## EOF completes a chunk without a byte-count check (C10) -/

/-- Claim C10: the read loop of `downloadChunk` marks the chunk
completed as soon as the body reaches EOF, with no comparison of the
received byte count against the requested range length: a fresh chunk
covering [0, 262143] (length 262144) whose response delivers 1000
bytes and then EOF ends with outcome completed and a downloaded count
of only 1000. -/
theorem eof_completes_chunk_without_length_check :
    (downloadChunkRun (ChunkFetchState.mk 0 0)
      [(1000, ReadErr.eof)]).2 = ChunkOutcome.completed ∧
    (downloadChunkRun (ChunkFetchState.mk 0 0)
      [(1000, ReadErr.eof)]).1.downloaded = 1000 ∧
    1000 < chunkLength (Chunk.mk 1 1 0 0 262143 0 "pending") := by
  decide

end BookDL
